import Mathlib

/-!
# Verification of the grasm-lib batch point-in-polygon kernel

The repository exposes a single WebAssembly entry point
`point_in_polygon(points, polygon, rings, boundary_is_inside)`.  The Rust
source of the kernel is not part of the repository snapshot (only its
interface documentation, a demo caller and build scripts are), so the kernel
is modelled here from the specification: ring decoding (§4.1), edge-set
building (§4.2), the scan-line crossing-number point classifier with an
explicit on-boundary check (§4.3), and the order-preserving batch driver
(§4.4, §6).  Coordinates are embedded as exact rationals `ℚ`.
-/

namespace Grasm

/-- A query or vertex point: a pair of coordinates (x, y). -/
abbrev Pt : Type := ℚ × ℚ

/-- The single error of the kernel's taxonomy (spec §7). -/
inductive PolyError : Type where
  | MalformedPolygon : PolyError
deriving DecidableEq, Repr

/-- Modelled from the spec: the boundary-detection tolerance.  The spec
leaves the concrete epsilon open (§9, "Open question"); a small fixed
positive value is chosen.  Every claim below is insensitive to its exact
value. -/
def EPS : ℚ := 1 / 1000000000

/-- Group a flat interleaved coordinate buffer `[x1, y1, x2, y2, ...]` into
points; `none` when the coordinate count is odd (unpaired coordinate). -/
def toPairs : List ℚ → Option (List Pt)
  | [] => some []
  | [_] => none
  | x :: y :: rest => (toPairs rest).map (fun l => (x, y) :: l)

/-- Split a vertex list into consecutive chunks of the given sizes
(any leftover vertices are dropped; the decoder only calls this after
checking that the sizes sum to the vertex count). -/
def chop : List ℕ → List Pt → List (List Pt)
  | [], _ => []
  | n :: ns, l => l.take n :: chop ns (l.drop n)

/-- Modelled from the spec (§4.1 Ring Decoder, §6): the missing Rust
decoder.  Input is the flat polygon coordinate buffer and the ring-size
array; per the spec's words the sizes are vertex counts that must sum to
the total vertex count M, every ring must have at least 3 vertices, and an
odd coordinate count is malformed. -/
def ringDecode (polygon : List ℚ) (ring_sizes : List ℕ) :
    Except PolyError (List (List Pt)) :=
  match toPairs polygon with
  | none => .error .MalformedPolygon
  | some verts =>
    if ring_sizes.sum ≠ verts.length then .error .MalformedPolygon
    else if ring_sizes.any (fun n => n < 3) then .error .MalformedPolygon
    else .ok (chop ring_sizes verts)

/-- Edge Set Builder (§4.2): for a ring v0..v(n-1) emit the directed edges
(v0,v1), (v1,v2), ..., (v(n-1),v0). -/
def ringEdges : List Pt → List (Pt × Pt)
  | [] => []
  | v :: vs => List.zip (v :: vs) (vs ++ [v])

/-- The flat edge collection of all rings; ring identity is not retained. -/
def edgeSet (rings : List (List Pt)) : List (Pt × Pt) :=
  (rings.map ringEdges).flatten

/-- On-segment test (§4.3 step 1), for the edge (a, b) = (e.1, e.2):
collinearity — the cross product of (b - a) and (p - a) within `EPS` of
zero — and the point's coordinates within the segment's bounding box. -/
def onSeg (p : Pt) (e : Pt × Pt) : Bool :=
  decide (|(e.2.1 - e.1.1) * (p.2 - e.1.2) - (e.2.2 - e.1.2) * (p.1 - e.1.1)| ≤ EPS)
    && decide (min e.1.1 e.2.1 ≤ p.1) && decide (p.1 ≤ max e.1.1 e.2.1)
    && decide (min e.1.2 e.2.2 ≤ p.2) && decide (p.2 ≤ max e.1.2 e.2.2)

/-- A point is on the boundary when some edge's on-segment test holds. -/
def onBoundary (p : Pt) (es : List (Pt × Pt)) : Bool :=
  es.any (onSeg p)

/-- Crossing predicate for one edge (§4.3 step 2): horizontal edges
(y1 = y2) are skipped; otherwise, when the half-open test
`(y1 > y) != (y2 > y)` holds, the edge contributes exactly when the
point's x is strictly less than
`x_cross = x1 + (y - y1) / (y2 - y1) * (x2 - x1)`. -/
def crossPred (p : Pt) (e : Pt × Pt) : Bool :=
  if e.1.2 = e.2.2 then false
  else if (decide (e.1.2 > p.2)) != (decide (e.2.2 > p.2)) then
    decide (p.1 < e.1.1 + (p.2 - e.1.2) / (e.2.2 - e.1.2) * (e.2.1 - e.1.1))
  else false

/-- The crossing counter over the whole edge set. -/
def crossCount (p : Pt) (es : List (Pt × Pt)) : ℕ :=
  es.countP (crossPred p)

/-- Point Classifier (§4.3): boundary short-circuits to the boundary
policy; otherwise parity of the crossing counter decides. -/
def classifyPoint (es : List (Pt × Pt)) (boundary_is_inside : Bool)
    (p : Pt) : ℕ :=
  if onBoundary p es then (if boundary_is_inside then 1 else 0)
  else if crossCount p es % 2 = 1 then 1 else 0

/-- Modelled from the spec (§4.4 Batch Driver, §6): the missing Rust entry
point `point_in_polygon`.  Both flat buffers must have even length (§6);
decoding failures surface before any point is classified; on success every
point is classified in input order against the one edge set. -/
def point_in_polygon (points polygon : List ℚ) (ring_sizes : List ℕ)
    (boundary_is_inside : Bool) : Except PolyError (List ℕ) :=
  match toPairs points with
  | none => .error .MalformedPolygon
  | some pts =>
    match ringDecode polygon ring_sizes with
    | .error e => .error e
    | .ok rings =>
        .ok (pts.map (classifyPoint (edgeSet rings) boundary_is_inside))

/-- The documented example's polygon buffer: outer square
(0,0)-(3,0)-(3,3)-(0,3) followed by hole square (1,1)-(2,1)-(2,2)-(1,2). -/
def docPolygon : List ℚ :=
  [0, 0, 3, 0, 3, 3, 0, 3, 1, 1, 2, 1, 2, 2, 1, 2]

/-- The documented example's query points (1.0,1.5), (2.5,0.5), (4.0,1.5). -/
def docPoints : List ℚ :=
  [1, 3/2, 5/2, 1/2, 4, 3/2]

/-- The documented example's query points, grouped into pairs. -/
def docPts : List Pt :=
  [(1, 3/2), (5/2, 1/2), (4, 3/2)]

/-- The documented exterior ring: square (0,0)-(3,0)-(3,3)-(0,3). -/
def docOuter : List Pt :=
  [(0, 0), (3, 0), (3, 3), (0, 3)]

/-- The documented hole ring: square (1,1)-(2,1)-(2,2)-(1,2). -/
def docHole : List Pt :=
  [(1, 1), (2, 1), (2, 2), (1, 2)]

/-- The documented example's decoded ring list. -/
def docRings : List (List Pt) :=
  [docOuter, docHole]

/-- The documented example's edge set. -/
def docEdges : List (Pt × Pt) :=
  edgeSet docRings

/-- A point is strictly inside a single ring when the crossing counter over
that ring's edges is odd (the model's notion of per-ring interiority,
spec §4.3 step 3). -/
def insideRing (r : List Pt) (p : Pt) : Prop :=
  crossCount p (ringEdges r) % 2 = 1

/-- A point is strictly outside a ring's bounding envelope when one of its
coordinates is strictly beyond every vertex of the ring on that side
(spec §8, "strictly outside every ring's bounding envelope"). -/
def outsideEnvelope (p : Pt) (r : List Pt) : Prop :=
  (∀ v ∈ r, p.1 < v.1) ∨ (∀ v ∈ r, v.1 < p.1) ∨
    (∀ v ∈ r, p.2 < v.2) ∨ (∀ v ∈ r, v.2 < p.2)

/-! ## Helper lemmas about decoding -/

/-- A successful pairing halves the buffer length. -/
theorem toPairs_length : ∀ (l : List ℚ) (ps : List Pt),
    toPairs l = some ps → l.length = 2 * ps.length
  | [], ps, h => by
      simp only [toPairs, Option.some.injEq] at h
      subst h
      rfl
  | [_], _, h => by simp [toPairs] at h
  | x :: y :: rest, ps, h => by
      cases hr : toPairs rest with
      | none => simp [toPairs, hr] at h
      | some l' =>
          simp only [toPairs, hr] at h
          simp only [Option.map, Option.some.injEq] at h
          subst h
          have := toPairs_length rest l' hr
          simp only [List.length_cons]
          omega

/-- Pairing fails exactly on odd-length buffers. -/
theorem toPairs_eq_none : ∀ (l : List ℚ),
    toPairs l = none ↔ l.length % 2 = 1
  | [] => by simp [toPairs]
  | [_] => by simp [toPairs]
  | x :: y :: rest => by
      have ih := toPairs_eq_none rest
      cases hr : toPairs rest with
      | none =>
          have ihh : rest.length % 2 = 1 := ih.1 hr
          refine iff_of_true ?_ ?_
          · simp [toPairs, hr]
          · simp only [List.length_cons]
            omega
      | some l' =>
          have ihh : ¬ rest.length % 2 = 1 := fun hodd => by
            rw [ih.2 hodd] at hr
            cases hr
          refine iff_of_false ?_ ?_
          · simp [toPairs, hr]
          · simp only [List.length_cons]
            omega

/-- When the sizes sum to the vertex count, chopping yields rings of
exactly the requested sizes. -/
theorem chop_map_length : ∀ (sizes : List ℕ) (l : List Pt),
    sizes.sum = l.length → (chop sizes l).map List.length = sizes
  | [], _, _ => by simp [chop]
  | n :: ns, l, h => by
      simp only [List.sum_cons] at h
      have h1 : n ≤ l.length := by omega
      have h2 : ns.sum = (l.drop n).length := by
        simp only [List.length_drop]
        omega
      simp only [chop, List.map_cons, List.length_take]
      rw [min_eq_left h1, chop_map_length ns _ h2]

/-! ## Helper lemmas about the classifier -/

/-- The classifier only ever emits 0 or 1. -/
theorem classifyPoint_mem (es : List (Pt × Pt)) (b : Bool) (p : Pt) :
    classifyPoint es b p = 0 ∨ classifyPoint es b p = 1 := by
  unfold classifyPoint
  split
  · split
    · exact Or.inr rfl
    · exact Or.inl rfl
  · split
    · exact Or.inr rfl
    · exact Or.inl rfl

/-- Both endpoints of a ring edge are vertices of the ring. -/
theorem mem_ringEdges {r : List Pt} {e : Pt × Pt} (h : e ∈ ringEdges r) :
    e.1 ∈ r ∧ e.2 ∈ r := by
  cases r with
  | nil => simp [ringEdges] at h
  | cons v vs =>
      rw [ringEdges] at h
      have h' : (e.1, e.2) ∈ List.zip (v :: vs) (vs ++ [v]) := by
        simpa using h
      obtain ⟨h1, h2⟩ := List.of_mem_zip h'
      refine ⟨h1, ?_⟩
      rcases List.mem_append.1 h2 with h3 | h3
      · exact List.mem_cons_of_mem _ h3
      · simp only [List.mem_singleton] at h3
        subst h3
        exact List.mem_cons_self _ _

/-- Parity of boolean flips along a vertex path: the number of adjacent
pairs whose boolean values differ has the parity of the endpoint
difference. -/
theorem flip_path (f : Pt → Bool) : ∀ (l : List Pt) (a c : Pt),
    (List.zip (a :: l) (l ++ [c])).countP (fun e => f e.1 != f e.2) % 2 =
      if f a != f c then 1 else 0
  | [], a, c => by
      simp only [List.nil_append, List.zip_cons_cons, List.zip_nil_right,
        List.countP_cons, List.countP_nil, Nat.zero_add]
      split
      · rfl
      · rfl
  | d :: l', a, c => by
      have ih := flip_path f l' d c
      simp only [List.cons_append, List.zip_cons_cons, List.countP_cons]
      cases hfa : f a <;> cases hfd : f d <;> cases hfc : f c <;>
        simp [hfa, hfd, hfc] at ih ⊢ <;> omega

/-- Around a closed ring, the boolean value of any vertex predicate flips
an even number of times. -/
theorem ringEdges_flip_even (f : Pt → Bool) (r : List Pt) :
    (ringEdges r).countP (fun e => f e.1 != f e.2) % 2 = 0 := by
  cases r with
  | nil => simp [ringEdges]
  | cons v vs =>
      rw [ringEdges, flip_path f vs v v]
      simp

/-- Every list of even numbers has an even sum. -/
theorem sum_even_of_all_even : ∀ (l : List ℕ),
    (∀ x ∈ l, x % 2 = 0) → l.sum % 2 = 0
  | [], _ => rfl
  | x :: l', h => by
      have hx := h x (List.mem_cons_self _ _)
      have hl := sum_even_of_all_even l' (fun y hy => h y (List.mem_cons_of_mem _ hy))
      simp only [List.sum_cons]
      omega

/-- Under the half-open crossing test the interpolation parameter
(y - y1) / (y2 - y1) lies in [0, 1]. -/
theorem interp_bounds (ya yb y : ℚ)
    (h : ((decide (ya > y)) != (decide (yb > y))) = true) :
    0 ≤ (y - ya) / (yb - ya) ∧ (y - ya) / (yb - ya) ≤ 1 := by
  by_cases h1 : ya > y
  · by_cases h2 : yb > y
    · simp [h1, h2] at h
    · have h2' : yb ≤ y := not_lt.1 h2
      have hd : 0 < ya - yb := by linarith
      have key : (y - ya) / (yb - ya) = (ya - y) / (ya - yb) := by
        rw [show ya - y = -(y - ya) by ring, show ya - yb = -(yb - ya) by ring,
          neg_div_neg_eq]
      rw [key]
      constructor
      · apply div_nonneg <;> linarith
      · rw [div_le_one hd]
        linarith
  · by_cases h2 : yb > y
    · have h1' : ya ≤ y := not_lt.1 h1
      have hd : 0 < yb - ya := by linarith
      constructor
      · apply div_nonneg <;> linarith
      · rw [div_le_one hd]
        linarith
    · simp [h1, h2] at h

/-- A convex combination x1 + t * (x2 - x1) with t in [0, 1] stays between
the endpoints. -/
theorem convex_bounds (x₁ x₂ t : ℚ) (h0 : 0 ≤ t) (h1 : t ≤ 1) :
    min x₁ x₂ ≤ x₁ + t * (x₂ - x₁) ∧ x₁ + t * (x₂ - x₁) ≤ max x₁ x₂ := by
  rcases le_total x₁ x₂ with h | h
  · rw [min_eq_left h, max_eq_right h]
    constructor <;> nlinarith
  · rw [min_eq_right h, max_eq_left h]
    constructor <;> nlinarith

/-- For a point strictly left of both endpoints, the crossing predicate
degenerates to the pure flip test. -/
theorem crossPred_eq_flip_left {p : Pt} {e : Pt × Pt}
    (h1 : p.1 < e.1.1) (h2 : p.1 < e.2.1) :
    crossPred p e = ((decide (e.1.2 > p.2)) != (decide (e.2.2 > p.2))) := by
  unfold crossPred
  split
  · rename_i heq
    rw [heq]
    simp
  · split
    · rename_i hflip
      rw [hflip, decide_eq_true]
      obtain ⟨ht0, ht1⟩ := interp_bounds e.1.2 e.2.2 p.2 hflip
      obtain ⟨hmin, _⟩ := convex_bounds e.1.1 e.2.1 _ ht0 ht1
      have hlt : p.1 < min e.1.1 e.2.1 := lt_min h1 h2
      linarith
    · rename_i hflip
      rw [Bool.not_eq_true] at hflip
      rw [hflip]

/-- A point strictly right of both endpoints never crosses the edge. -/
theorem crossPred_false_right {p : Pt} {e : Pt × Pt}
    (h1 : e.1.1 < p.1) (h2 : e.2.1 < p.1) :
    crossPred p e = false := by
  unfold crossPred
  split
  · rfl
  · split
    · rename_i hflip
      rw [decide_eq_false]
      intro hlt
      obtain ⟨ht0, ht1⟩ := interp_bounds e.1.2 e.2.2 p.2 hflip
      obtain ⟨_, hmax⟩ := convex_bounds e.1.1 e.2.1 _ ht0 ht1
      have hgt : max e.1.1 e.2.1 < p.1 := max_lt h1 h2
      linarith
    · rfl

/-- A point strictly below both endpoints never crosses the edge. -/
theorem crossPred_false_below {p : Pt} {e : Pt × Pt}
    (h1 : p.2 < e.1.2) (h2 : p.2 < e.2.2) :
    crossPred p e = false := by
  unfold crossPred
  split
  · rfl
  · rw [decide_eq_true h1, decide_eq_true h2]
    simp

/-- A point strictly above both endpoints never crosses the edge. -/
theorem crossPred_false_above {p : Pt} {e : Pt × Pt}
    (h1 : e.1.2 < p.2) (h2 : e.2.2 < p.2) :
    crossPred p e = false := by
  unfold crossPred
  split
  · rfl
  · rw [decide_eq_false (not_lt.2 h1.le), decide_eq_false (not_lt.2 h2.le)]
    simp

/-- A point strictly left of both endpoints fails the on-segment test. -/
theorem onSeg_false_left {p : Pt} {e : Pt × Pt}
    (h1 : p.1 < e.1.1) (h2 : p.1 < e.2.1) :
    onSeg p e = false := by
  unfold onSeg
  rw [decide_eq_false (not_le.2 (lt_min h1 h2))]
  simp

/-- A point strictly right of both endpoints fails the on-segment test. -/
theorem onSeg_false_right {p : Pt} {e : Pt × Pt}
    (h1 : e.1.1 < p.1) (h2 : e.2.1 < p.1) :
    onSeg p e = false := by
  unfold onSeg
  rw [decide_eq_false (not_le.2 (max_lt h1 h2))]
  simp

/-- A point strictly below both endpoints fails the on-segment test. -/
theorem onSeg_false_below {p : Pt} {e : Pt × Pt}
    (h1 : p.2 < e.1.2) (h2 : p.2 < e.2.2) :
    onSeg p e = false := by
  unfold onSeg
  rw [decide_eq_false (not_le.2 (lt_min h1 h2))]
  simp

/-- A point strictly above both endpoints fails the on-segment test. -/
theorem onSeg_false_above {p : Pt} {e : Pt × Pt}
    (h1 : e.1.2 < p.2) (h2 : e.2.2 < p.2) :
    onSeg p e = false := by
  unfold onSeg
  rw [decide_eq_false (not_le.2 (max_lt h1 h2))]
  simp

/-- A ring whose bounding envelope strictly excludes the point contributes
an even number of crossings. -/
theorem ring_cross_even (p : Pt) (r : List Pt) (h : outsideEnvelope p r) :
    (ringEdges r).countP (crossPred p) % 2 = 0 := by
  rcases h with h | h | h | h
  · have hcong : (ringEdges r).countP (crossPred p) =
        (ringEdges r).countP
          (fun e => (decide (e.1.2 > p.2)) != (decide (e.2.2 > p.2))) := by
      apply List.countP_congr
      intro e he
      obtain ⟨m1, m2⟩ := mem_ringEdges he
      rw [crossPred_eq_flip_left (h _ m1) (h _ m2)]
    rw [hcong]
    exact ringEdges_flip_even (fun v => decide (v.2 > p.2)) r
  · have hzero : (ringEdges r).countP (crossPred p) = 0 := by
      rw [List.countP_eq_zero]
      intro e he
      obtain ⟨m1, m2⟩ := mem_ringEdges he
      simp [crossPred_false_right (h _ m1) (h _ m2)]
    rw [hzero]
  · have hzero : (ringEdges r).countP (crossPred p) = 0 := by
      rw [List.countP_eq_zero]
      intro e he
      obtain ⟨m1, m2⟩ := mem_ringEdges he
      simp [crossPred_false_below (h _ m1) (h _ m2)]
    rw [hzero]
  · have hzero : (ringEdges r).countP (crossPred p) = 0 := by
      rw [List.countP_eq_zero]
      intro e he
      obtain ⟨m1, m2⟩ := mem_ringEdges he
      simp [crossPred_false_above (h _ m1) (h _ m2)]
    rw [hzero]

/-! ## Helper lemmas about the error paths -/

/-- A ring-size sum that misses the vertex count makes decoding fail. -/
theorem ringDecode_error_sum (polygon : List ℚ) (sizes : List ℕ)
    (h : sizes.sum ≠ polygon.length / 2) :
    ringDecode polygon sizes = .error .MalformedPolygon := by
  unfold ringDecode
  cases hg : toPairs polygon with
  | none => rfl
  | some verts =>
      have hlen := toPairs_length polygon verts hg
      have hne : sizes.sum ≠ verts.length := by omega
      simp [hne]

/-- A declared ring of fewer than 3 vertices makes decoding fail. -/
theorem ringDecode_error_small (polygon : List ℚ) (sizes : List ℕ)
    (h : ∃ n ∈ sizes, n < 3) :
    ringDecode polygon sizes = .error .MalformedPolygon := by
  unfold ringDecode
  cases hg : toPairs polygon with
  | none => rfl
  | some verts =>
      by_cases hs : sizes.sum ≠ verts.length
      · simp [hs]
      · have hseq : sizes.sum = verts.length := not_not.1 hs
        have hany : sizes.any (fun n => n < 3) = true := by
          rw [List.any_eq_true]
          obtain ⟨n, hn, h3⟩ := h
          exact ⟨n, hn, by simpa using h3⟩
        simp [hseq, hany]

/-- Decoding failures propagate to the entry point unchanged. -/
theorem pip_error_of_ringDecode (points polygon : List ℚ) (sizes : List ℕ)
    (b : Bool) (h : ringDecode polygon sizes = .error .MalformedPolygon) :
    point_in_polygon points polygon sizes b = .error .MalformedPolygon := by
  unfold point_in_polygon
  cases hp : toPairs points with
  | none => rfl
  | some pts => rw [h]

/-- The documented example's point buffer decodes to its three points. -/
theorem toPairs_docPoints : toPairs docPoints = some docPts := rfl

/-- The documented example's polygon buffer with sizes [4, 4] decodes to
the two documented square rings. -/
theorem ringDecode_doc : ringDecode docPolygon [4, 4] = .ok docRings := rfl

/-- Full evaluation of the spec-modelled entry point on the documented
example (polygon = square with square hole, sizes [4, 4],
boundary_is_inside = true): the result is [1, 1, 0], because the first
query point (1.0, 1.5) lies exactly on the hole's left edge. -/
theorem doc_example_eval :
    point_in_polygon docPoints docPolygon [4, 4] true = Except.ok [1, 1, 0] := by
  norm_num [point_in_polygon, toPairs, ringDecode, chop, edgeSet, ringEdges,
    classifyPoint, onBoundary, onSeg, crossCount, crossPred, EPS, docPoints,
    docPolygon, List.countP, List.countP.go]

/-! ## Claim theorems -/

/-- C1 (counterexample): on the documented input — polygon = square ring
with square hole, query points (1.0,1.5), (2.5,0.5), (4.0,1.5),
boundary_is_inside = true, ring sizes [4, 4] — the spec-modelled entry
point does NOT return [0, 1, 0]. -/
theorem C1_claim_refuted :
    ¬ point_in_polygon docPoints docPolygon [4, 4] true = Except.ok [0, 1, 0] := by
  rw [doc_example_eval]
  simp

/-- C1 (amended): on the documented input the spec-modelled entry point
returns [1, 1, 0]: the first query point (1.0, 1.5) lies exactly on the
hole's left edge, so the boundary policy (boundary_is_inside = true)
classifies it 1 rather than 0. -/
theorem C1_documented_example :
    point_in_polygon docPoints docPolygon [4, 4] true = Except.ok [1, 1, 0] :=
  doc_example_eval

/-- C2: whenever the ring-size entries do not sum to the polygon vertex
count M (M = half the coordinate-buffer length), the entry point fails
with MalformedPolygon and produces no result array. -/
theorem C2_ring_sum_mismatch (points polygon : List ℚ) (ring_sizes : List ℕ)
    (b : Bool) (h : ring_sizes.sum ≠ polygon.length / 2) :
    point_in_polygon points polygon ring_sizes b =
      Except.error PolyError.MalformedPolygon :=
  pip_error_of_ringDecode points polygon ring_sizes b
    (ringDecode_error_sum polygon ring_sizes h)

/-- C2 witness: a concrete mismatching call ([4] against 8 vertices)
fails with MalformedPolygon. -/
theorem C2_witness :
    List.sum [4] ≠ docPolygon.length / 2 ∧
      point_in_polygon docPoints docPolygon [4] true =
        Except.error PolyError.MalformedPolygon :=
  ⟨by decide, C2_ring_sum_mismatch docPoints docPolygon [4] true (by decide)⟩

/-- C3: for every query point not on the boundary, the classifier returns
1 exactly when the counter over all edges — skipping horizontal edges
(y1 = y2), and for every other edge with (y1 > y) != (y2 > y) counting it
exactly when the point's x is strictly less than
x_cross = x1 + (y - y1) / (y2 - y1) * (x2 - x1) — is odd, and 0 otherwise. -/
theorem C3_crossing_rule (es : List (Pt × Pt)) (b : Bool) (p : Pt)
    (h : onBoundary p es = false) :
    classifyPoint es b p =
      if (es.countP (fun e =>
          if e.1.2 = e.2.2 then false
          else if (decide (e.1.2 > p.2)) != (decide (e.2.2 > p.2)) then
            decide (p.1 < e.1.1 + (p.2 - e.1.2) / (e.2.2 - e.1.2) * (e.2.1 - e.1.1))
          else false)) % 2 = 1
      then 1 else 0 := by
  simp only [classifyPoint, h, Bool.false_eq_true, if_false]
  rfl

/-- C3 witness: the documented second query point (2.5, 0.5) is not on the
boundary and the crossing rule applies to it. -/
theorem C3_witness :
    onBoundary (5/2, 1/2) docEdges = false ∧
      classifyPoint docEdges true (5/2, 1/2) =
        (if (docEdges.countP (fun e =>
            if e.1.2 = e.2.2 then false
            else if (decide (e.1.2 > (1/2 : ℚ))) != (decide (e.2.2 > (1/2 : ℚ))) then
              decide ((5/2 : ℚ) < e.1.1 + ((1/2 : ℚ) - e.1.2) / (e.2.2 - e.1.2) * (e.2.1 - e.1.1))
            else false)) % 2 = 1
        then 1 else 0) := by
  have hb : onBoundary (5/2, 1/2) docEdges = false := by
    norm_num [onBoundary, onSeg, EPS, docEdges, docRings, docOuter, docHole,
      edgeSet, ringEdges]
  exact ⟨hb, C3_crossing_rule docEdges true (5/2, 1/2) hb⟩

/-- C4: a query point lying exactly on some edge of the edge set (onSeg:
collinear within the epsilon tolerance and inside the segment's bounding
box) is resolved directly by the boundary policy — 1 when
boundary_is_inside is true and 0 when it is false — without consulting
the crossing count. -/
theorem C4_boundary_policy (es : List (Pt × Pt)) (b : Bool) (p : Pt)
    (h : ∃ e ∈ es, onSeg p e = true) :
    classifyPoint es b p = if b then 1 else 0 := by
  have hb : onBoundary p es = true := by
    rw [onBoundary, List.any_eq_true]
    obtain ⟨e, he, hs⟩ := h
    exact ⟨e, he, hs⟩
  simp [classifyPoint, hb]

/-- C4 witness: the point (1.0, 1.5) on the hole's left edge is classified
1 under boundary_is_inside = true and 0 under false. -/
theorem C4_witness :
    (∃ e ∈ docEdges, onSeg (1, 3/2) e = true) ∧
      classifyPoint docEdges true (1, 3/2) = 1 ∧
      classifyPoint docEdges false (1, 3/2) = 0 := by
  have hex : ∃ e ∈ docEdges, onSeg (1, 3/2) e = true := by
    refine ⟨((1, 2), (1, 1)), ?_, ?_⟩
    · norm_num [docEdges, docRings, docOuter, docHole, edgeSet, ringEdges]
    · norm_num [onSeg, EPS]
  exact ⟨hex, (C4_boundary_policy docEdges true (1, 3/2) hex).trans rfl,
    (C4_boundary_policy docEdges false (1, 3/2) hex).trans rfl⟩

/-- C5: every successful call returns one entry per query point (N = half
the point-buffer length), every entry is 0 or 1, and entry i is the
classification of input point i — the result is exactly the in-order map
of the classifier over the decoded points. -/
theorem C5_batch_result (points polygon : List ℚ) (ring_sizes : List ℕ)
    (b : Bool) (res : List ℕ)
    (h : point_in_polygon points polygon ring_sizes b = Except.ok res) :
    res.length = points.length / 2 ∧
      (∀ x ∈ res, x = 0 ∨ x = 1) ∧
      ∀ pts rs, toPairs points = some pts →
        ringDecode polygon ring_sizes = Except.ok rs →
          res = pts.map (classifyPoint (edgeSet rs) b) := by
  unfold point_in_polygon at h
  cases hp : toPairs points with
  | none =>
      rw [hp] at h
      simp at h
  | some pts =>
      rw [hp] at h
      cases hd : ringDecode polygon ring_sizes with
      | error e =>
          rw [hd] at h
          simp at h
      | ok rs =>
          rw [hd] at h
          simp only [Except.ok.injEq] at h
          subst h
          refine ⟨?_, ?_, ?_⟩
          · rw [List.length_map]
            have := toPairs_length points pts hp
            omega
          · intro x hx
            obtain ⟨q, _, rfl⟩ := List.mem_map.1 hx
            exact classifyPoint_mem _ _ _
          · intro pts' rs' hp' hd'
            injection hp' with hp''
            injection hd' with hd''
            subst hp''
            subst hd''
            rfl

/-- C5 witness: the documented successful call has 3 points, result length
3, and result equal to the in-order map of the classifier. -/
theorem C5_witness :
    point_in_polygon docPoints docPolygon [4, 4] true = Except.ok [1, 1, 0] ∧
      ([1, 1, 0] : List ℕ).length = docPoints.length / 2 ∧
      ([1, 1, 0] : List ℕ) = docPts.map (classifyPoint (edgeSet docRings) true) := by
  have h := doc_example_eval
  have hc := C5_batch_result docPoints docPolygon [4, 4] true [1, 1, 0] h
  exact ⟨h, hc.1, hc.2.2 docPts docRings toPairs_docPoints ringDecode_doc⟩

/-- C6 (counterexample): a call whose query-point buffer has odd length
fails with MalformedPolygon even though none of the claim's three
polygon-shape conditions holds (even polygon coordinate count, sizes
summing to the vertex count, all sizes at least 3), so the claimed
"exactly when" is too narrow. -/
theorem C6_points_also_checked :
    point_in_polygon [0] docPolygon [4, 4] true =
        Except.error PolyError.MalformedPolygon ∧
      docPolygon.length % 2 = 0 ∧
      List.sum [4, 4] = docPolygon.length / 2 ∧
      List.all [4, 4] (fun n => 3 ≤ n) = true :=
  ⟨rfl, rfl, rfl, rfl⟩

/-- C6 (amended): a call fails with MalformedPolygon exactly when the
point buffer has odd length, the polygon coordinate count is odd, the
ring sizes do not sum to the polygon vertex count, or some declared ring
has fewer than 3 vertices; otherwise it fully succeeds, so no partial
result is ever produced. -/
theorem C6_failure_characterisation (points polygon : List ℚ)
    (ring_sizes : List ℕ) (b : Bool) :
    point_in_polygon points polygon ring_sizes b =
        Except.error PolyError.MalformedPolygon ↔
      (points.length % 2 = 1 ∨ polygon.length % 2 = 1 ∨
        ring_sizes.sum ≠ polygon.length / 2 ∨ ∃ n ∈ ring_sizes, n < 3) := by
  constructor
  · intro h
    by_contra hcon
    push_neg at hcon
    obtain ⟨h1, h2, h3, h4⟩ := hcon
    cases hp : toPairs points with
    | none => exact h1 ((toPairs_eq_none points).1 hp)
    | some pts =>
        cases hg : toPairs polygon with
        | none => exact h2 ((toPairs_eq_none polygon).1 hg)
        | some verts =>
            have hlen := toPairs_length polygon verts hg
            have hsum : ring_sizes.sum = verts.length := by omega
            have hany : ring_sizes.any (fun n => n < 3) = false := by
              rw [List.any_eq_false]
              intro n hn
              simpa using h4 n hn
            unfold point_in_polygon ringDecode at h
            rw [hp, hg] at h
            simp [hsum, hany] at h
  · intro h
    rcases h with h | h | h | h
    · have hp := (toPairs_eq_none points).2 h
      simp [point_in_polygon, hp]
    · refine pip_error_of_ringDecode _ _ _ _ ?_
      have hg := (toPairs_eq_none polygon).2 h
      simp [ringDecode, hg]
    · exact pip_error_of_ringDecode _ _ _ _
        (ringDecode_error_sum polygon ring_sizes h)
    · exact pip_error_of_ringDecode _ _ _ _
        (ringDecode_error_small polygon ring_sizes h)

/-- C7: for a polygon made of an exterior ring and a hole ring, any point
strictly inside the hole (odd crossings against the hole's edges) that is
also inside the exterior alone (odd crossings against the exterior's
edges) and not on any edge is classified 0 overall, for either boundary
policy: the combined parity is even. -/
theorem C7_hole_outside (outer hole : List Pt) (b : Bool) (p : Pt)
    (houter : insideRing outer p) (hhole : insideRing hole p)
    (hb : onBoundary p (edgeSet [outer, hole]) = false) :
    classifyPoint (edgeSet [outer, hole]) b p = 0 := by
  have hsplit : crossCount p (edgeSet [outer, hole]) =
      crossCount p (ringEdges outer) + crossCount p (ringEdges hole) := by
    simp [crossCount, edgeSet]
  have hc : ¬ crossCount p (edgeSet [outer, hole]) % 2 = 1 := by
    rw [hsplit]
    unfold insideRing at houter hhole
    unfold crossCount at houter hhole ⊢
    omega
  simp [classifyPoint, hb, hc]

/-- C7 witness: the point (1.5, 1.5) inside the documented hole (and inside
the documented exterior square) is classified 0. -/
theorem C7_witness :
    insideRing docOuter (3/2, 3/2) ∧ insideRing docHole (3/2, 3/2) ∧
      onBoundary (3/2, 3/2) (edgeSet [docOuter, docHole]) = false ∧
      classifyPoint (edgeSet [docOuter, docHole]) true (3/2, 3/2) = 0 := by
  have h1 : insideRing docOuter (3/2, 3/2) := by
    norm_num [insideRing, crossCount, crossPred, ringEdges, docOuter,
      List.countP, List.countP.go]
  have h2 : insideRing docHole (3/2, 3/2) := by
    norm_num [insideRing, crossCount, crossPred, ringEdges, docHole,
      List.countP, List.countP.go]
  have h3 : onBoundary (3/2, 3/2) (edgeSet [docOuter, docHole]) = false := by
    norm_num [onBoundary, onSeg, EPS, edgeSet, ringEdges, docOuter, docHole]
  exact ⟨h1, h2, h3, C7_hole_outside docOuter docHole true (3/2, 3/2) h1 h2 h3⟩

/-- C8: the entry point is a pure function of its four inputs — two calls
with identical inputs return identical result vectors; no state survives
between calls in the model. -/
theorem C8_deterministic (points points' polygon polygon' : List ℚ)
    (ring_sizes ring_sizes' : List ℕ) (b b' : Bool)
    (h1 : points = points') (h2 : polygon = polygon')
    (h3 : ring_sizes = ring_sizes') (h4 : b = b') :
    point_in_polygon points polygon ring_sizes b =
      point_in_polygon points' polygon' ring_sizes' b' := by
  subst h1
  subst h2
  subst h3
  subst h4
  rfl

/-- C8 witness: two identical documented calls agree. -/
theorem C8_witness :
    point_in_polygon docPoints docPolygon [4, 4] true =
      point_in_polygon docPoints docPolygon [4, 4] true :=
  C8_deterministic docPoints docPoints docPolygon docPolygon [4, 4] [4, 4]
    true true rfl rfl rfl rfl

/-- C9: a query point with a coordinate strictly outside the bounding
envelope of every ring is classified 0: it is on no edge, and each ring
contributes an even number of crossings (zero from a ring whose envelope
the point misses in y or lies right of, and an even flip count from a
ring the point lies left of). -/
theorem C9_outside_envelope (rings : List (List Pt)) (b : Bool) (p : Pt)
    (h : ∀ r ∈ rings, outsideEnvelope p r) :
    classifyPoint (edgeSet rings) b p = 0 := by
  have hb : onBoundary p (edgeSet rings) = false := by
    rw [onBoundary, List.any_eq_false]
    intro e he
    rw [edgeSet, List.mem_flatten] at he
    obtain ⟨l, hl, hel⟩ := he
    obtain ⟨r, hr, rfl⟩ := List.mem_map.1 hl
    have hm := mem_ringEdges hel
    rcases h r hr with h4 | h4 | h4 | h4
    · simp [onSeg_false_left (h4 _ hm.1) (h4 _ hm.2)]
    · simp [onSeg_false_right (h4 _ hm.1) (h4 _ hm.2)]
    · simp [onSeg_false_below (h4 _ hm.1) (h4 _ hm.2)]
    · simp [onSeg_false_above (h4 _ hm.1) (h4 _ hm.2)]
  have hc : crossCount p (edgeSet rings) % 2 = 0 := by
    rw [crossCount, edgeSet, List.countP_flatten, List.map_map]
    apply sum_even_of_all_even
    intro x hx
    obtain ⟨r, hr, rfl⟩ := List.mem_map.1 hx
    exact ring_cross_even p r (h r hr)
  have hc' : ¬ crossCount p (edgeSet rings) % 2 = 1 := by omega
  simp [classifyPoint, hb, hc']

/-- C9 witness: the documented third query point (4.0, 1.5) lies strictly
right of both documented rings and is classified 0. -/
theorem C9_witness :
    (∀ r ∈ docRings, outsideEnvelope (4, 3/2) r) ∧
      classifyPoint (edgeSet docRings) true (4, 3/2) = 0 := by
  have h : ∀ r ∈ docRings, outsideEnvelope (4, 3/2) r := by
    intro r hr
    simp only [docRings, List.mem_cons, List.not_mem_nil, or_false] at hr
    rcases hr with rfl | rfl
    · refine Or.inr (Or.inl ?_)
      intro v hv
      simp only [docOuter, List.mem_cons, List.not_mem_nil, or_false] at hv
      rcases hv with rfl | rfl | rfl | rfl <;> norm_num
    · refine Or.inr (Or.inl ?_)
      intro v hv
      simp only [docHole, List.mem_cons, List.not_mem_nil, or_false] at hv
      rcases hv with rfl | rfl | rfl | rfl <;> norm_num
  exact ⟨h, C9_outside_envelope docRings true (4, 3/2) h⟩

/-- C10 (counterexample): under the spec-modelled decoder the README's
literal call — ring array [4] against the 8-vertex polygon buffer — is
rejected as MalformedPolygon instead of succeeding as a 4-vertex exterior
ring plus implicit 4-vertex final ring. -/
theorem C10_split_reading_fails :
    point_in_polygon docPoints docPolygon [4] true =
      Except.error PolyError.MalformedPolygon := rfl

/-- C10 (amended): the ring array consumed by the spec-modelled decoder is
a complete list of per-ring vertex counts, not cumulative split
positions: a successful decode of an array of R entries yields exactly R
rings whose vertex counts are those entries, and the entries necessarily
sum to the total vertex count. -/
theorem C10_ring_sizes_semantics (polygon : List ℚ) (ring_sizes : List ℕ)
    (rings : List (List Pt))
    (h : ringDecode polygon ring_sizes = Except.ok rings) :
    rings.map List.length = ring_sizes ∧
      ring_sizes.sum = polygon.length / 2 := by
  unfold ringDecode at h
  cases hg : toPairs polygon with
  | none =>
      rw [hg] at h
      simp at h
  | some verts =>
      rw [hg] at h
      by_cases hs : ring_sizes.sum ≠ verts.length
      · simp [hs] at h
      · have hseq := not_not.1 hs
        by_cases ha : ring_sizes.any (fun n => n < 3) = true
        · simp [hseq, ha] at h
        · have ha' : ring_sizes.any (fun n => n < 3) = false :=
            Bool.not_eq_true _ ▸ ha
          simp [hseq, ha'] at h
          have hlen := toPairs_length polygon verts hg
          subst h
          constructor
          · exact chop_map_length ring_sizes verts hseq
          · omega

/-- C10 witness: decoding the documented polygon with sizes [4, 4] yields
two rings of 4 vertices each, and 4 + 4 is the vertex total 8. -/
theorem C10_witness :
    docRings.map List.length = [4, 4] ∧
      List.sum [4, 4] = docPolygon.length / 2 :=
  C10_ring_sizes_semantics docPolygon [4, 4] docRings ringDecode_doc

end Grasm
